import Mathlib

/-!
Verification of `torch/csrc/jit/script/import_source.cpp` (the versioned
source-to-IR importer) against its natural-language specification.

The development shallowly embeds the importer: the lexer token stream is a
`List Tok`, the C library function `strtoll` is modelled over `List Char`
with explicit clamping to the `int64_t` range, `std::set<std::string>` is
modelled as a strictly sorted deduplicated list, and the two reconstruction
drivers `import_methods` / `import_libs` are pure functions returning the
observable data they hand to the external compiler (definition lists,
resolver lists, registered class names, callback invocation traces).
-/

namespace TorchImport

/-! ## Model of `std::strtoll(_, _, 10)` (C standard library)

`ConstantTableValue::attr` calls `std::strtoll(field_s + 1, &end, 10)`.
Per the C standard, base-10 `strtoll` skips leading whitespace, accepts an
optional `+`/`-` sign, consumes the longest run of decimal digits, and
clamps the value to the `int64_t` range on overflow.  If no digits were
consumed, it returns 0 and sets `end` to the original start pointer. -/

/-- The whitespace characters recognised by C `isspace` in the default
locale: space, tab, newline, vertical tab, form feed, carriage return. -/
def isSpaceC (c : Char) : Bool :=
  c == ' ' || c == '\t' || c == '\n' || c == '\x0b' || c == '\x0c' || c == '\r'

/-- Numeric value of a decimal digit character. -/
def digitVal (c : Char) : Nat := c.toNat - '0'.toNat

/-- Value of a digit string, most significant digit first. -/
def natOfDigits (ds : List Char) : Nat :=
  ds.foldl (fun a c => 10 * a + digitVal c) 0

/-- Clamp an integer into the closed `int64_t` range
`[-2^63, 2^63 - 1]`, as `strtoll` does on overflow. -/
def int64Clamp (n : Int) : Int :=
  max (-(2 ^ 63)) (min (2 ^ 63 - 1) n)

/-- `strtoll10 s = (value, end)`: the value parsed by
`std::strtoll(s, &end, 10)` together with the rest of the string starting
at the final `end` pointer.  When no digits are consumed the result is
`(0, s)` (the standard resets `end` to the original start). -/
def strtoll10 (s : List Char) : Int × List Char :=
  let s1 := s.dropWhile isSpaceC
  let signAndRest : Int × List Char :=
    if s1.head? = some '-' then (-1, s1.tail)
    else if s1.head? = some '+' then (1, s1.tail)
    else (1, s1)
  let ds := signAndRest.2.takeWhile Char.isDigit
  let rest := signAndRest.2.dropWhile Char.isDigit
  if ds.isEmpty then (0, s)
  else (int64Clamp (signAndRest.1 * (natOfDigits ds : Int)), rest)

/-! ## `ConstantTableValue::attr` (import_source.cpp lines 70-86) -/

/-- Outcome of `ConstantTableValue::attr`:
either one of the two `ErrorReport` throws, or a `SimpleValue` wrapping the
constant inserted in the graph.  The out-of-range report carries the data
streamed into the error message: the parsed offset and the table size. -/
inductive ConstAttrResult (α : Type) where
  | invalidConstantSpecifier (field : String)
  | constantIndexOutOfRange (offset : Int) (tableSize : Nat)
  | simple (payload : α)
deriving DecidableEq

/-- `ConstantTableValue::attr`: parse the attribute string after its first
character with `strtoll`; report an invalid specifier if the string is
shorter than 2 characters or `*end != 0`; report out-of-range if the
offset is negative or `size_t(offset) >= constants_.size()`; otherwise
return the indexed payload as a simple value. -/
def constantTableAttr {α : Type} (constants : List α) (field : String) :
    ConstAttrResult α :=
  let tail := field.data.drop 1
  let parsed := strtoll10 tail
  if field.length < 2 ∨ parsed.2 ≠ [] then
    .invalidConstantSpecifier field
  else if parsed.1 < 0 then
    .constantIndexOutOfRange parsed.1 constants.length
  else if h : constants.length ≤ parsed.1.toNat then
    .constantIndexOutOfRange parsed.1 constants.length
  else
    .simple (constants.get ⟨parsed.1.toNat, by omega⟩)

/-- Modelled from the spec: the attribute pattern `c<non-negative-integer>`
(a single leading letter, then decimal digits, no trailing characters),
used by the spec to describe when `InvalidConstantSpecifier` is raised.
This definition follows the spec's words, to be compared with the
behaviour of `constantTableAttr` taken from the source. -/
def specConstantPattern (field : String) : Bool :=
  match field.data with
  | c0 :: c1 :: rest => c0.isAlpha && (c1 :: rest).all Char.isDigit
  | _ => false

/-! ## Token stream model

The lexer (`torch/csrc/jit/script/lexer.h`) and the grammar parser
(`parseFunction`, `parseClass`) are external collaborators of the importer
and are not part of the source under verification; the spec describes only
their interface.  Modelled from the spec: a token stream is a list of
tokens; end-of-input (`TK_EOF`) is the end of the list;
`parseFunction`/`parseClass` consume one opaque definition / class-body
token.  Every token carries the text of its source span. -/

/-- Modelled from the spec: `Const::create`/`isIntegral`/`asIntegral` are
not under the verified source; a `TK_NUMBER` literal is either
syntactically integral with a value, or non-integral (e.g. a float). -/
inductive NumLit where
  | int (v : Nat)
  | nonIntegral (text : String)
deriving DecidableEq

/-- Modelled from the spec: one parsed method definition is an opaque unit
(`parseFunction(isMethod) -> Definition`). -/
structure Def where
  name : String
deriving DecidableEq

/-- Modelled from the spec:
`parseClass() -> ClassDefinition{name, methodDefs[]}`. -/
structure ClassDef where
  name : String
  defs : List Def
deriving DecidableEq

/-- Modelled from the spec: the token kinds the importer inspects.
`classT`/`defT` stand for the whole token span of one class body /
function body as returned by the external parser. -/
inductive Tok where
  | ident (text : String)
  | num (lit : NumLit)
  | punct (text : String)
  | newline
  | importKw
  | classT (c : ClassDef)
  | defT (d : Def)
deriving DecidableEq

/-- The source-span text of a token, as returned by `Token::text()`.
The spans of class and function bodies are not tracked by the model; the
nonempty keyword stands in for them. -/
def Tok.text : Tok → String
  | .ident s => s
  | .num (.int v) => toString v
  | .num (.nonIntegral t) => t
  | .punct s => s
  | .newline => "\n"
  | .importKw => "import"
  | .classT _ => "class"
  | .defT _ => "def"

/-- Errors of the importer.  `expectedToken` models a failing
`Lexer::expect`, the two `malformedVersion` constructors model the two
explicit `ErrorReport` throws of `parseVersionNumber`, `assertEmptyImport`
models the `AT_ASSERT(!str.empty())` abort in `parseImports`,
`parseError` models the external parser failing on an unexpected token,
and `outOfFuel` is an artifact of the fuel-based recursion of the
`import_libs` loop, proved unreachable when the fuel exceeds the token
count. -/
inductive ImpErr where
  | expectedToken (what : String)
  | malformedVersionName
  | malformedVersionNonIntegral
  | assertEmptyImport
  | parseError
  | outOfFuel
deriving DecidableEq

/-- Modelled from the spec: §7 classifies version-gate failures (version
statement missing or malformed) as `MalformedHeader`; these are the
`Lexer::expect` failures and the two explicit throws of
`parseVersionNumber`. -/
def specIsMalformedHeader : ImpErr → Bool
  | .expectedToken _ => true
  | .malformedVersionName => true
  | .malformedVersionNonIntegral => true
  | _ => false

deriving instance DecidableEq for Except

/-! ## `parseVersionNumber` (import_source.cpp lines 139-152) -/

/-- `parseVersionNumber`: expect `IDENT '=' NUMBER NEWLINE`, then require
the identifier to be `op_version_set` and the literal to be integral, and
return the parsed integer (no upper bound enforced). -/
def parseVersionNumber (toks : List Tok) : Except ImpErr (Nat × List Tok) :=
  match toks with
  | .ident name :: t1 =>
    match t1 with
    | .punct "=" :: t2 =>
      match t2 with
      | .num lit :: t3 =>
        match t3 with
        | .newline :: rest =>
          if name = "op_version_set" then
            match lit with
            | .int v => .ok (v, rest)
            | .nonIntegral _ => .error .malformedVersionNonIntegral
          else .error .malformedVersionName
        | _ => .error (.expectedToken "TK_NEWLINE")
      | _ => .error (.expectedToken "TK_NUMBER")
    | _ => .error (.expectedToken "=")
  | _ => .error (.expectedToken "TK_IDENT")

/-! ## `parseImports` (import_source.cpp lines 154-169)

The nested loops of `parseImports` are modelled as one token-list
recursion with an explicit mode: mode `none` is the outer
`while (L.nextIf(TK_IMPORT))` loop at a statement boundary; mode `some s`
is the inner `while (L.cur().kind != TK_NEWLINE)` loop with `s` the
concatenation accumulated in the `ostringstream`.  `std::set` is modelled
as a strictly sorted deduplicated list (`std::less<std::string>` is
byte-wise lexicographic order, as is `String.lt` on ASCII). -/

/-- Lexicographic order on character lists: the comparison performed by
`std::less<std::string>` (byte-wise lexicographic; on UTF-8 data byte
order and code-point order coincide). -/
def charListLt : List Char → List Char → Bool
  | _, [] => false
  | [], _ :: _ => true
  | a :: as, b :: bs =>
    if a < b then true
    else if a = b then charListLt as bs
    else false

/-- `std::less<std::string>`: strict lexicographic order on the contents. -/
def strLt (a b : String) : Bool := charListLt a.data b.data

/-- Insertion into the sorted deduplicated list modelling
`std::set<std::string>::insert`. -/
def insertSorted (s : String) : List String → List String
  | [] => [s]
  | x :: r =>
    if strLt s x then s :: x :: r
    else if s = x then x :: r
    else x :: insertSorted s r

/-- The fused loop of `parseImports`; returns the set of unique dependency
names and the remaining token stream. -/
def parseImportsLoop : List Tok → Option String → List String →
    Except ImpErr (List String × List Tok)
  | .importKw :: r, none, acc => parseImportsLoop r (some "") acc
  | toks, none, acc => .ok (acc, toks)
  | [], some _, _ => .error (.expectedToken "TK_NEWLINE")
  | .newline :: r, some s, acc =>
    if s = "" then .error .assertEmptyImport
    else parseImportsLoop r none (insertSorted s acc)
  | t :: r, some s, acc => parseImportsLoop r (some (s ++ t.text)) acc

def parseImports (toks : List Tok) : Except ImpErr (List String × List Tok) :=
  parseImportsLoop toks none []

/-- Modelled from the spec: the per-occurrence dependency names of the
statements heading a token stream, in source order with duplicates kept —
the spec-side reading of "dependency name string appearing in the
unit's import statements", compared with the deduplicated set the code
produces.  The mode argument mirrors `parseImportsLoop`. -/
def rawImportOccurrences : List Tok → Option String → List String
  | .importKw :: r, none => rawImportOccurrences r (some "")
  | _, none => []
  | [], some _ => []
  | .newline :: r, some s => s :: rawImportOccurrences r none
  | t :: r, some s => rawImportOccurrences r (some (s ++ t.text))

/-- The dependency-name occurrences of a token stream's import preamble. -/
def importOccurrences (toks : List Tok) : List String :=
  rawImportOccurrences toks none


/-! ## The `AT_ASSERT(!str.empty())` abort is unreachable for
well-formed lexer output -/

/-- Whether the token stream anywhere has an `import` keyword immediately
followed by a line terminator — the situation (excluded by the lexer
contract) in which the concatenated dependency name would be empty. -/
def importThenNewline : List Tok → Bool
  | [] => false
  | [_] => false
  | t1 :: t2 :: r =>
    (t1 == Tok.importKw && t2 == Tok.newline) || importThenNewline (t2 :: r)

/-! ## The reconstruction drivers
(`import_methods`, import_source.cpp lines 171-200;
`import_libs`, lines 202-238)

The drivers are modelled as pure functions returning the observable data
handed to the external collaborators: the version, the callback
invocation trace (in invocation order), and the definition and resolver
lists submitted to `CompilationUnit::define`.  A `SourceResolver` is
identified by the data of its construction (version, bound constant
table) plus a sequence number `envId` counting the `SourceResolver`
allocations of the call, so that distinct allocations are
distinguishable.  A fresh `CompilationUnit` of `import_libs` is likewise
identified by its allocation number `cuId`. -/

/-- The observable identity of one `std::make_shared<SourceResolver>`
allocation: its constructor arguments and its allocation number. -/
structure SResolver (α : Type) where
  version : Nat
  constants : List α
  envId : Nat
deriving DecidableEq

/-- The observable outcome of a successful `import_methods` call. -/
structure MethodsResult (α : Type) where
  version : Nat
  callbackTrace : List String
  definitions : List Def
  resolvers : List (SResolver α)
deriving DecidableEq

/-- The definition loop of `import_methods`: while not at end-of-input,
parse one method (`parseFunction`, modelled as consuming one `defT`
token) and push it together with the one shared resolver. -/
def collectDefs {α : Type} (resolver : SResolver α) :
    List Tok → Except ImpErr (List Def × List (SResolver α))
  | [] => .ok ([], [])
  | .defT d :: r =>
    match collectDefs resolver r with
    | .error e => .error e
    | .ok p => .ok (d :: p.1, resolver :: p.2)
  | _ :: _ => .error .parseError

/-- `import_methods`: parse the version, parse the import preamble,
invoke the callback (when present) once per set element in set order,
build one shared `SourceResolver`, then parse definitions until
end-of-input, pairing each with that resolver. -/
def import_methods {α : Type} (toks : List Tok) (constant_table : List α)
    (has_cb : Bool) : Except ImpErr (MethodsResult α) :=
  match parseVersionNumber toks with
  | .error e => .error e
  | .ok (version, t1) =>
    match parseImports t1 with
    | .error e => .error e
    | .ok (imports, t2) =>
      match collectDefs (⟨version, constant_table, 0⟩ : SResolver α) t2 with
      | .error e => .error e
      | .ok p =>
        .ok ⟨version, if has_cb then imports else [], p.1, p.2⟩

/-- The observable outcome of one iteration of the `import_libs` loop:
the callback invocations of the block's preamble, the qualified name the
new class type is registered under, the allocation number of the fresh
class-scoped compilation unit, and the definition/resolver lists
submitted to `define`. -/
structure LibBatch (α : Type) where
  callbackTrace : List String
  className : String
  cuId : Nat
  definitions : List Def
  resolvers : List (SResolver α)
deriving DecidableEq

/-- The method loop of one `import_libs` iteration: push every method of
the class body together with the block's resolver. -/
def pairWithResolver {α : Type} (resolver : SResolver α) :
    List Def → List Def × List (SResolver α)
  | [] => ([], [])
  | d :: r =>
    let (ds, rs) := pairWithResolver resolver r
    (d :: ds, resolver :: rs)

/-- The `while (cur().kind != TK_EOF)` loop of `import_libs`: per
iteration parse one import preamble, invoke the callback per set element,
build a fresh `SourceResolver`, parse one class body, pair its methods
with the block resolver, register the class under
`class_qualifier + "." + name` in a fresh compilation unit, and submit
the batch.  Already-completed batches are returned alongside any error of
a later block (registration into the global registry is not rolled
back).  The `fuel` argument only bounds the recursion; `import_libs`
passes more fuel than there are tokens, so `outOfFuel` is unreachable. -/
def importLibsLoop {α : Type} (qual : String) (version : Nat) (ct : List α)
    (cb : Bool) : Nat → Nat → List Tok → List (LibBatch α) × Option ImpErr
  | _, _, [] => ([], none)
  | 0, _, _ :: _ => ([], some .outOfFuel)
  | fuel + 1, k, t0 :: r =>
    match parseImports (t0 :: r) with
    | .error e => ([], some e)
    | .ok (imports, t1) =>
      match t1 with
      | .classT c :: t2 =>
        let resolver : SResolver α := ⟨version, ct, k⟩
        let pr := pairWithResolver resolver c.defs
        let batch : LibBatch α :=
          ⟨if cb then imports else [], qual ++ "." ++ c.name, k,
            pr.1, pr.2⟩
        let next := importLibsLoop qual version ct cb fuel (k + 1) t2
        (batch :: next.1, next.2)
      | _ => ([], some .parseError)

/-- `import_libs`: parse the version once, then run the per-class loop on
the rest of the stream. -/
def import_libs {α : Type} (qual : String) (toks : List Tok) (ct : List α)
    (cb : Bool) : List (LibBatch α) × Option ImpErr :=
  match parseVersionNumber toks with
  | .error e => ([], some e)
  | .ok (version, t1) => importLibsLoop qual version ct cb (t1.length + 1) 0 t1

/-! ## `ClassNamespaceValue::attr` (import_source.cpp lines 42-52) and
`SourceResolver::resolveValue` (lines 115-129) -/

/-- The symbolic values of the resolver environment.  The payloads of the
two `ConstantValue` literals (IEEE positive infinity / quiet NaN) and the
constant-table binding are not tracked; the claims do not inspect them. -/
inductive SugaredV where
  | builtinModule (name : String) (version : Nat)
  | opsV (version : Nat)
  | constantTableV
  | forkV
  | annotateV
  | infLit
  | nanLit
  | namespaceV (basename : List String)
  | classV (name : List String)
deriving DecidableEq

/-- `ClassNamespaceValue::attr`: extend the qualified name by one
segment; if the global type registry has a class registered there,
return a class handle wrapping it, otherwise a deeper namespace value.
Modelled from the spec: the registry (`ClassType::get`, an external
collaborator keyed by qualified dotted name) is the set of registered
qualified names, a qualified name being its list of segments. -/
def classNamespaceAttr (registry : List (List String))
    (basename : List String) (name : String) : SugaredV :=
  let fullName := basename ++ [name]
  if fullName ∈ registry then .classV fullName
  else .namespaceV fullName

/-- `SourceResolver::resolveValue`: look the name up in the static
environment built by the `SourceResolver` constructor; failing that, the
reserved root token `__torch__` resolves to a fresh root namespace;
anything else is not found (`nullptr`). -/
def resolveValue (version : Nat) (name : String) : Option SugaredV :=
  if name = "torch" then some (.builtinModule "aten" version)
  else if name = "ops" then some (.opsV version)
  else if name = "CONSTANTS" then some .constantTableV
  else if name = "fork" then some .forkV
  else if name = "annotate" then some .annotateV
  else if name = "inf" then some .infLit
  else if name = "nan" then some .nanLit
  else if name = "__torch__" then some (.namespaceV ["__torch__"])
  else none

/-! ## Lemmas about `strtoll10` on pure digit strings -/

lemma not_space_of_isDigit {c : Char} (h : c.isDigit = true) :
    isSpaceC c = false := by
  unfold isSpaceC
  by_contra hc
  simp only [Bool.or_eq_true, beq_iff_eq, Bool.not_eq_false] at hc
  rcases hc with ((((h1 | h1) | h1) | h1) | h1) | h1 <;>
    (subst h1; exact absurd h (by decide))

lemma ne_dash_of_isDigit {c : Char} (h : c.isDigit = true) : c ≠ '-' := by
  intro hc; subst hc; exact absurd h (by decide)

lemma ne_plus_of_isDigit {c : Char} (h : c.isDigit = true) : c ≠ '+' := by
  intro hc; subst hc; exact absurd h (by decide)

/-- On a nonempty all-digit string, `strtoll10` consumes everything and
returns the clamped digit value. -/
lemma strtoll10_digits {ds : List Char} (hne : ds ≠ [])
    (hdig : ∀ c ∈ ds, c.isDigit = true) :
    strtoll10 ds = (int64Clamp (natOfDigits ds), []) := by
  match ds, hne with
  | d :: t, _ =>
    have hd : d.isDigit = true := hdig d (List.mem_cons_self d t)
    have hsp : isSpaceC d = false := not_space_of_isDigit hd
    have h1 : (d :: t).dropWhile isSpaceC = d :: t := by
      simp [List.dropWhile_cons, hsp]
    have h2 : (d :: t).takeWhile Char.isDigit = d :: t :=
      List.takeWhile_eq_self_iff.mpr hdig
    have h3 : (d :: t).dropWhile Char.isDigit = [] :=
      List.dropWhile_eq_nil_iff.mpr hdig
    have hd1 : d ≠ '-' := ne_dash_of_isDigit hd
    have hd2 : d ≠ '+' := ne_plus_of_isDigit hd
    simp only [strtoll10, h1, List.head?_cons, Option.some.injEq, hd1, hd2,
      if_false, h2, h3, List.isEmpty_cons, one_mul]
    rfl

/-- A clamped nonnegative value below any bound under `2^63` is unchanged. -/
lemma int64Clamp_of_lt {k N : Nat} (hk : k < N) (hN : N < 2 ^ 63) :
    int64Clamp (k : Int) = (k : Int) := by
  unfold int64Clamp
  omega

/-! Characterization lemmas for the four outcomes of
`ConstantTableValue::attr`, following the branch structure of the code. -/

lemma attr_eq_invalid_iff {α : Type} (constants : List α) (field : String) :
    constantTableAttr constants field = .invalidConstantSpecifier field ↔
      (field.length < 2 ∨ (strtoll10 (field.data.drop 1)).2 ≠ []) := by
  simp only [constantTableAttr]
  split
  · next h => exact iff_of_true rfl h
  · next h =>
    split
    · exact iff_of_false (by simp) h
    · split <;> exact iff_of_false (by simp) h

lemma attr_eq_oob_of_neg {α : Type} (constants : List α) (field : String)
    (hok : ¬ (field.length < 2 ∨ (strtoll10 (field.data.drop 1)).2 ≠ []))
    (hneg : (strtoll10 (field.data.drop 1)).1 < 0) :
    constantTableAttr constants field =
      .constantIndexOutOfRange (strtoll10 (field.data.drop 1)).1
        constants.length := by
  simp only [constantTableAttr]
  rw [if_neg hok, if_pos hneg]

lemma attr_eq_oob_of_ge {α : Type} (constants : List α) (field : String)
    (hok : ¬ (field.length < 2 ∨ (strtoll10 (field.data.drop 1)).2 ≠ []))
    (hnn : 0 ≤ (strtoll10 (field.data.drop 1)).1)
    (hge : constants.length ≤ (strtoll10 (field.data.drop 1)).1.toNat) :
    constantTableAttr constants field =
      .constantIndexOutOfRange (strtoll10 (field.data.drop 1)).1
        constants.length := by
  simp only [constantTableAttr]
  rw [if_neg hok, if_neg (not_lt.mpr hnn), dif_pos hge]

lemma attr_eq_simple {α : Type} (constants : List α) (field : String)
    (hok : ¬ (field.length < 2 ∨ (strtoll10 (field.data.drop 1)).2 ≠ []))
    (hnn : 0 ≤ (strtoll10 (field.data.drop 1)).1)
    (hlt : (strtoll10 (field.data.drop 1)).1.toNat < constants.length) :
    constantTableAttr constants field =
      .simple (constants.get ⟨(strtoll10 (field.data.drop 1)).1.toNat, hlt⟩) := by
  simp only [constantTableAttr]
  rw [if_neg hok, if_neg (not_lt.mpr hnn), dif_neg (not_le.mpr hlt)]

/-- C1: the constant-table accessor raises `InvalidConstantSpecifier`
exactly when the attribute string fails the pattern
`c<non-negative-integer>`.  Refuted: `strtoll` also accepts an optional
sign (and leading whitespace) after the first character, so the string
`"c+0"` fails the pattern yet is accepted and resolves to the constant at
offset 0 instead of raising `InvalidConstantSpecifier`. -/
theorem C1_counterexample :
    specConstantPattern "c+0" = false ∧
    constantTableAttr [(42 : Nat)] "c+0" = .simple 42 := by
  decide

/-- C1 (amended): `InvalidConstantSpecifier` is raised exactly when the
attribute string is shorter than 2 characters or the `strtoll` parse of
the string after its first character leaves unconsumed trailing
characters; because `strtoll` skips leading whitespace and accepts an
optional sign, a string with a sign or space after the leading letter can
pass this check, but no string matching `c<digits>` ever raises the
error. -/
theorem C1_invalid_specifier_condition {α : Type} (constants : List α)
    (field : String) :
    (constantTableAttr constants field = .invalidConstantSpecifier field ↔
      (field.length < 2 ∨ (strtoll10 (field.data.drop 1)).2 ≠ [])) ∧
    (specConstantPattern field = true →
      constantTableAttr constants field ≠ .invalidConstantSpecifier field) := by
  refine ⟨attr_eq_invalid_iff constants field, ?_⟩
  intro hp
  obtain ⟨fdata⟩ := field
  rcases fdata with _ | ⟨c0, _ | ⟨c1, rest⟩⟩ <;>
    unfold specConstantPattern at hp
  · exact absurd hp (by simp)
  · exact absurd hp (by simp)
  · simp only [Bool.and_eq_true, List.all_eq_true] at hp
    have hst : strtoll10 ((c1 :: rest : List Char)) =
        (int64Clamp (natOfDigits (c1 :: rest)), []) :=
      strtoll10_digits (by simp) (fun c hc => hp.2 c hc)
    intro hcontra
    rw [attr_eq_invalid_iff] at hcontra
    rcases hcontra with h | h
    · have hl : (String.mk (c0 :: c1 :: rest)).length = rest.length + 2 := by
        show (c0 :: c1 :: rest).length = rest.length + 2
        simp
      omega
    · have h2 : (strtoll10 (c1 :: rest)).2 ≠ [] := h
      rw [hst] at h2
      exact h2 rfl

/-- C2: for a bound constant table of size `N`, resolving attribute `c<k>`
succeeds for `0 ≤ k < N` and yields the `k`-th payload wrapped as a simple
value; it fails with `ConstantIndexOutOfRange`, citing the parsed offset
and the table size, when `k ≥ N` or when the parsed offset is negative. -/
theorem C2_constant_table_bounds {α : Type} (constants : List α)
    (ds : List Char) (hne : ds ≠ [])
    (hdig : ∀ c ∈ ds, c.isDigit = true)
    (hN : constants.length < 2 ^ 63) :
    (∀ hk : natOfDigits ds < constants.length,
        constantTableAttr constants (String.mk ('c' :: ds)) =
          .simple (constants.get ⟨natOfDigits ds, hk⟩)) ∧
    (constants.length ≤ natOfDigits ds →
        constantTableAttr constants (String.mk ('c' :: ds)) =
          .constantIndexOutOfRange (int64Clamp (natOfDigits ds))
            constants.length) ∧
    (∀ field : String, 2 ≤ field.length →
        (strtoll10 (field.data.drop 1)).2 = [] →
        (strtoll10 (field.data.drop 1)).1 < 0 →
        constantTableAttr constants field =
          .constantIndexOutOfRange (strtoll10 (field.data.drop 1)).1
            constants.length) := by
  have hst : strtoll10 ds = (int64Clamp (natOfDigits ds), []) :=
    strtoll10_digits hne hdig
  have hdrop : (String.mk ('c' :: ds)).data.drop 1 = ds := rfl
  have hsnd : (strtoll10 ((String.mk ('c' :: ds)).data.drop 1)) =
      (int64Clamp (natOfDigits ds), []) := by rw [hdrop, hst]
  have hok : ¬ ((String.mk ('c' :: ds)).length < 2 ∨
      (strtoll10 ((String.mk ('c' :: ds)).data.drop 1)).2 ≠ []) := by
    rw [hsnd]
    show ¬ ((String.mk ('c' :: ds)).length < 2 ∨ ([] : List Char) ≠ [])
    have h3 : ds.length ≠ 0 := fun h => hne (List.eq_nil_of_length_eq_zero h)
    have h2 : (String.mk ('c' :: ds)).length = ds.length + 1 := by
      show ('c' :: ds).length = ds.length + 1
      simp
    simp [h2]
    omega
  refine ⟨?_, ?_, ?_⟩
  · intro hk
    have hcl : int64Clamp (natOfDigits ds) = (natOfDigits ds : Int) :=
      int64Clamp_of_lt hk hN
    have hnn : 0 ≤ (strtoll10 ((String.mk ('c' :: ds)).data.drop 1)).1 := by
      rw [hsnd]
      show (0 : Int) ≤ int64Clamp (natOfDigits ds)
      rw [hcl]; omega
    have hlt : (strtoll10 ((String.mk ('c' :: ds)).data.drop 1)).1.toNat <
        constants.length := by
      rw [hsnd]
      show (int64Clamp (natOfDigits ds)).toNat < constants.length
      rw [hcl]; omega
    rw [attr_eq_simple constants _ hok hnn hlt]
    have htn : (strtoll10 ((String.mk ('c' :: ds)).data.drop 1)).1.toNat =
        natOfDigits ds := by
      rw [hsnd]
      show (int64Clamp (natOfDigits ds)).toNat = natOfDigits ds
      rw [hcl]; omega
    exact congrArg (fun i => ConstAttrResult.simple (constants.get i))
      (Fin.ext htn)
  · intro hk
    have hnn : 0 ≤ (strtoll10 ((String.mk ('c' :: ds)).data.drop 1)).1 := by
      rw [hsnd]
      show (0 : Int) ≤ int64Clamp (natOfDigits ds)
      unfold int64Clamp; omega
    have hge : constants.length ≤
        (strtoll10 ((String.mk ('c' :: ds)).data.drop 1)).1.toNat := by
      rw [hsnd]
      show constants.length ≤ (int64Clamp (natOfDigits ds)).toNat
      unfold int64Clamp; omega
    rw [attr_eq_oob_of_ge constants _ hok hnn hge, hsnd]
  · intro field hflen hrest hneg
    refine attr_eq_oob_of_neg constants field ?_ hneg
    rw [hrest]
    simp only [ne_eq, not_true_eq_false, or_false, not_lt]
    omega

/-- C2 witness: on the table `[10, 20]`, attribute `c1` resolves to the
payload `20`. -/
theorem C2_witness :
    constantTableAttr [(10 : Nat), 20] (String.mk ['c', '1']) = .simple 20 :=
  (C2_constant_table_bounds [10, 20] ['1'] (by decide) (by decide)
    (by norm_num)).1 (by decide)

/-- C1 witness for the amended claim: a pattern-conforming attribute never
raises `InvalidConstantSpecifier`. -/
theorem C1_witness :
    constantTableAttr [(5 : Nat)] "c0" ≠ .invalidConstantSpecifier "c0" :=
  (C1_invalid_specifier_condition [(5 : Nat)] "c0").2 (by decide)

/-! ## The lexicographic order is a strict total order -/

lemma charListLt_irrefl : ∀ l : List Char, charListLt l l = false
  | [] => rfl
  | a :: as => by
    unfold charListLt
    simp [charListLt_irrefl as]

lemma charListLt_trans : ∀ (l1 l2 l3 : List Char),
    charListLt l1 l2 = true → charListLt l2 l3 = true →
    charListLt l1 l3 = true := by
  intro l1
  induction l1 with
  | nil =>
    intro l2 l3 h1 h2
    cases l2 with
    | nil => simp [charListLt] at h1
    | cons b bs =>
      cases l3 with
      | nil => simp [charListLt] at h2
      | cons c cs => simp [charListLt]
  | cons a as ih =>
    intro l2 l3 h1 h2
    cases l2 with
    | nil => simp [charListLt] at h1
    | cons b bs =>
      cases l3 with
      | nil => simp [charListLt] at h2
      | cons c cs =>
        unfold charListLt at h1 h2 ⊢
        split at h1
        · next hab =>
          split at h2
          · next hbc => rw [if_pos (lt_trans hab hbc)]
          · split at h2
            · next hbc => subst hbc; rw [if_pos hab]
            · exact absurd h2 (by simp)
        · split at h1
          · next hab =>
            subst hab
            split at h2
            · next hbc => rw [if_pos hbc]
            · split at h2
              · next hbc =>
                subst hbc
                rw [if_neg (lt_irrefl a), if_pos rfl]
                exact ih bs cs h1 h2
              · exact absurd h2 (by simp)
          · exact absurd h1 (by simp)

lemma charListLt_connex : ∀ (l1 l2 : List Char), l1 ≠ l2 →
    charListLt l1 l2 = true ∨ charListLt l2 l1 = true := by
  intro l1
  induction l1 with
  | nil =>
    intro l2 h
    cases l2 with
    | nil => exact absurd rfl h
    | cons b bs => left; simp [charListLt]
  | cons a as ih =>
    intro l2 h
    cases l2 with
    | nil => right; simp [charListLt]
    | cons b bs =>
      rcases lt_trichotomy a b with hab | hab | hab
      · left; unfold charListLt; rw [if_pos hab]
      · subst hab
        have hne : as ≠ bs := fun he => h (by rw [he])
        rcases ih bs hne with h' | h' <;>
          [left; right] <;>
          (unfold charListLt; rw [if_neg (lt_irrefl a), if_pos rfl]) <;>
          exact h'
      · right; unfold charListLt; rw [if_pos hab]

lemma strLt_trans {a b c : String} (h1 : strLt a b = true)
    (h2 : strLt b c = true) : strLt a c = true :=
  charListLt_trans _ _ _ h1 h2

lemma strLt_irrefl (a : String) : strLt a a = false :=
  charListLt_irrefl _

lemma strLt_connex : ∀ (a b : String), a ≠ b →
    strLt a b = true ∨ strLt b a = true
  | ⟨da⟩, ⟨db⟩, h =>
    charListLt_connex da db (fun hd => h (congrArg String.mk hd))

lemma append_ne_empty_of_right : ∀ {s t : String}, t ≠ "" → s ++ t ≠ ""
  | ⟨ds⟩, ⟨dt⟩, h, he => by
    have h2 : ds ++ dt = ([] : List Char) := congrArg String.data he
    have h3 : dt = [] := (List.append_eq_nil.mp h2).2
    exact h (congrArg String.mk h3)

/-! ## `insertSorted` preserves sortedness and captures membership -/

lemma insertSorted_mem (s a : String) : ∀ l : List String,
    (a ∈ insertSorted s l ↔ a = s ∨ a ∈ l)
  | [] => by simp [insertSorted]
  | x :: r => by
    unfold insertSorted
    split
    · simp [List.mem_cons]
    · split
      · next hsx =>
        subst hsx
        simp [List.mem_cons]
      · simp only [List.mem_cons, insertSorted_mem s a r]
        tauto

lemma insertSorted_pairwise (s : String) : ∀ (l : List String),
    l.Pairwise (fun a b => strLt a b = true) →
    (insertSorted s l).Pairwise (fun a b => strLt a b = true) := by
  intro l
  induction l with
  | nil => intro _; simp [insertSorted]
  | cons x r ih =>
    intro hp
    rw [List.pairwise_cons] at hp
    unfold insertSorted
    split
    · next hsx =>
      rw [List.pairwise_cons]
      refine ⟨?_, List.pairwise_cons.mpr hp⟩
      intro y hy
      rcases List.mem_cons.mp hy with hy | hy
      · subst hy; exact hsx
      · exact strLt_trans hsx (hp.1 y hy)
    · next hnlt =>
      split
      · exact List.pairwise_cons.mpr hp
      · next hne =>
        rw [List.pairwise_cons]
        refine ⟨?_, ih hp.2⟩
        intro y hy
        rcases (insertSorted_mem s y r).mp hy with hy | hy
        · subst hy
          rcases strLt_connex y x hne with h' | h'
          · exact absurd h' hnlt
          · exact h'
        · exact hp.1 y hy

/-- C3: `parseVersionNumber` succeeds exactly on a first statement
`op_version_set = V NEWLINE` with `V` an integral literal, returning
exactly `V` (no upper bound is enforced); every other first statement
fails with a `MalformedHeader`-class error. -/
theorem C3_version_gate (toks : List Tok) :
    (∀ (v : Nat) (rest : List Tok),
        parseVersionNumber toks = .ok (v, rest) ↔
          toks = .ident "op_version_set" :: .punct "=" ::
            .num (.int v) :: .newline :: rest) ∧
    (∀ e, parseVersionNumber toks = .error e →
        specIsMalformedHeader e = true) := by
  constructor
  · intro v rest
    constructor
    · intro h
      unfold parseVersionNumber at h
      repeat' split at h
      all_goals simp_all
    · intro h
      subst h
      simp [parseVersionNumber]
  · intro e h
    unfold parseVersionNumber at h
    repeat' split at h
    all_goals (cases h <;> rfl)

/-- C3 witness: a concrete valid header returns its version. -/
theorem C3_witness :
    parseVersionNumber
      [Tok.ident "op_version_set", Tok.punct "=", Tok.num (.int 7),
       Tok.newline] = .ok (7, []) :=
  ((C3_version_gate _).1 7 []).mpr rfl

/-! ## Invariants of the `parseImports` loop -/

/-- The correctness invariant of `parseImportsLoop`: starting from a
sorted accumulator, a successful run returns a strictly sorted list whose
members are the accumulator members plus the dependency-name occurrences
of the consumed import statements, and nonempty accumulator entries stay
nonempty (the `AT_ASSERT` guard admits only nonempty names). -/
lemma parseImportsLoop_ok : ∀ (toks : List Tok) (mode : Option String)
    (acc l : List String) (rest : List Tok),
    parseImportsLoop toks mode acc = .ok (l, rest) →
    acc.Pairwise (fun a b => strLt a b = true) →
    l.Pairwise (fun a b => strLt a b = true) ∧
    (∀ s, s ∈ l ↔ s ∈ acc ∨ s ∈ rawImportOccurrences toks mode) ∧
    ((∀ s ∈ acc, s ≠ "") → ∀ s ∈ l, s ≠ "") := by
  intro toks
  induction toks with
  | nil =>
    intro mode acc l rest h hacc
    cases mode with
    | none =>
      cases (show (Except.ok (acc, ([] : List Tok)) :
          Except ImpErr (List String × List Tok)) = .ok (l, rest) from h)
      exact ⟨hacc, fun s => by simp [rawImportOccurrences], fun hne => hne⟩
    | some s =>
      cases (show (Except.error (ImpErr.expectedToken "TK_NEWLINE") :
          Except ImpErr (List String × List Tok)) = .ok (l, rest) from h)
  | cons t r ih =>
    intro mode acc l rest h hacc
    cases mode with
    | none =>
      cases t with
      | importKw =>
        have h' : parseImportsLoop r (some "") acc = .ok (l, rest) := h
        exact ih _ acc l rest h' hacc
      | ident s0 =>
        cases (show (Except.ok (acc, Tok.ident s0 :: r) :
            Except ImpErr (List String × List Tok)) = .ok (l, rest) from h)
        exact ⟨hacc, fun s => by
          simp [show rawImportOccurrences (Tok.ident s0 :: r) none = []
            from rfl], fun hne => hne⟩
      | num lit =>
        cases (show (Except.ok (acc, Tok.num lit :: r) :
            Except ImpErr (List String × List Tok)) = .ok (l, rest) from h)
        exact ⟨hacc, fun s => by
          simp [show rawImportOccurrences (Tok.num lit :: r) none = []
            from rfl], fun hne => hne⟩
      | punct s0 =>
        cases (show (Except.ok (acc, Tok.punct s0 :: r) :
            Except ImpErr (List String × List Tok)) = .ok (l, rest) from h)
        exact ⟨hacc, fun s => by
          simp [show rawImportOccurrences (Tok.punct s0 :: r) none = []
            from rfl], fun hne => hne⟩
      | newline =>
        cases (show (Except.ok (acc, Tok.newline :: r) :
            Except ImpErr (List String × List Tok)) = .ok (l, rest) from h)
        exact ⟨hacc, fun s => by
          simp [show rawImportOccurrences (Tok.newline :: r) none = []
            from rfl], fun hne => hne⟩
      | classT c =>
        cases (show (Except.ok (acc, Tok.classT c :: r) :
            Except ImpErr (List String × List Tok)) = .ok (l, rest) from h)
        exact ⟨hacc, fun s => by
          simp [show rawImportOccurrences (Tok.classT c :: r) none = []
            from rfl], fun hne => hne⟩
      | defT d =>
        cases (show (Except.ok (acc, Tok.defT d :: r) :
            Except ImpErr (List String × List Tok)) = .ok (l, rest) from h)
        exact ⟨hacc, fun s => by
          simp [show rawImportOccurrences (Tok.defT d :: r) none = []
            from rfl], fun hne => hne⟩
    | some s =>
      cases t with
      | newline =>
        have h' : (if s = "" then (.error .assertEmptyImport :
            Except ImpErr (List String × List Tok))
            else parseImportsLoop r none (insertSorted s acc)) =
            .ok (l, rest) := h
        split at h'
        · cases h'
        · next hsne =>
          obtain ⟨ih1, ih2, ih3⟩ := ih none (insertSorted s acc) l rest h'
            (insertSorted_pairwise s acc hacc)
          refine ⟨ih1, ?_, ?_⟩
          · intro s'
            rw [ih2 s',
              show rawImportOccurrences (Tok.newline :: r) (some s) =
                s :: rawImportOccurrences r none from rfl,
              insertSorted_mem]
            simp only [List.mem_cons]
            tauto
          · intro hne s' hs'
            refine ih3 ?_ s' hs'
            intro y hy
            rcases (insertSorted_mem s y acc).mp hy with rfl | hy
            · exact hsne
            · exact hne y hy
      | importKw =>
        have h' : parseImportsLoop r (some (s ++ Tok.importKw.text)) acc =
            .ok (l, rest) := h
        exact ih _ acc l rest h' hacc
      | ident s0 =>
        have h' : parseImportsLoop r (some (s ++ (Tok.ident s0).text)) acc =
            .ok (l, rest) := h
        exact ih _ acc l rest h' hacc
      | num lit =>
        have h' : parseImportsLoop r (some (s ++ (Tok.num lit).text)) acc =
            .ok (l, rest) := h
        exact ih _ acc l rest h' hacc
      | punct s0 =>
        have h' : parseImportsLoop r (some (s ++ (Tok.punct s0).text)) acc =
            .ok (l, rest) := h
        exact ih _ acc l rest h' hacc
      | classT c =>
        have h' : parseImportsLoop r (some (s ++ (Tok.classT c).text)) acc =
            .ok (l, rest) := h
        exact ih _ acc l rest h' hacc
      | defT d =>
        have h' : parseImportsLoop r (some (s ++ (Tok.defT d).text)) acc =
            .ok (l, rest) := h
        exact ih _ acc l rest h' hacc

/-- Two strictly sorted lists with the same members are equal: the
deduplicated sorted trace of a name set is unique. -/
lemma pairwise_strLt_ext : ∀ (l1 l2 : List String),
    l1.Pairwise (fun a b => strLt a b = true) →
    l2.Pairwise (fun a b => strLt a b = true) →
    (∀ s, s ∈ l1 ↔ s ∈ l2) → l1 = l2 := by
  intro l1
  induction l1 with
  | nil =>
    intro l2 _ _ hm
    cases l2 with
    | nil => rfl
    | cons b bs =>
      exact absurd ((hm b).mpr (List.mem_cons_self b bs)) (List.not_mem_nil b)
  | cons a as ih =>
    intro l2 h1 h2 hm
    cases l2 with
    | nil =>
      exact absurd ((hm a).mp (List.mem_cons_self a as)) (List.not_mem_nil a)
    | cons b bs =>
      have hab : a = b := by
        rcases List.mem_cons.mp ((hm a).mp (List.mem_cons_self a as)) with
          h | h
        · exact h
        · rcases List.mem_cons.mp ((hm b).mpr (List.mem_cons_self b bs)) with
            h' | h'
          · exact h'.symm
          · have hba : strLt b a = true := (List.pairwise_cons.mp h2).1 a h
            have hab' : strLt a b = true := (List.pairwise_cons.mp h1).1 b h'
            have hcontra := strLt_trans hab' hba
            rw [strLt_irrefl] at hcontra
            cases hcontra
      subst hab
      have hans : a ∉ as := fun hmem => by
        have hx := (List.pairwise_cons.mp h1).1 a hmem
        rw [strLt_irrefl] at hx
        cases hx
      have hbns : a ∉ bs := fun hmem => by
        have hx := (List.pairwise_cons.mp h2).1 a hmem
        rw [strLt_irrefl] at hx
        cases hx
      have hm' : ∀ s, s ∈ as ↔ s ∈ bs := by
        intro s
        constructor
        · intro hs
          rcases List.mem_cons.mp ((hm s).mp (List.mem_cons_of_mem a hs)) with
            rfl | h
          · exact absurd hs hans
          · exact h
        · intro hs
          rcases List.mem_cons.mp ((hm s).mpr (List.mem_cons_of_mem a hs)) with
            rfl | h
          · exact absurd hs hbns
          · exact h
      rw [ih bs (List.pairwise_cons.mp h1).2 (List.pairwise_cons.mp h2).2 hm']

lemma importThenNewline_tail {t : Tok} {r : List Tok}
    (h : importThenNewline (t :: r) = false) : importThenNewline r = false := by
  cases r with
  | nil => rfl
  | cons t2 rest =>
    have h' : ((t == Tok.importKw && t2 == Tok.newline) ||
        importThenNewline (t2 :: rest)) = false := h
    exact (Bool.or_eq_false_iff.mp h').2

/-- The assertion abort never fires when every token span is nonempty and
no `import` keyword is immediately followed by a newline. -/
lemma parseImportsLoop_no_assert : ∀ (toks : List Tok) (mode : Option String)
    (acc : List String),
    (∀ t ∈ toks, t.text ≠ "") →
    importThenNewline toks = false →
    (∀ s, mode = some s → (s ≠ "" ∨ ∀ r, toks ≠ Tok.newline :: r)) →
    parseImportsLoop toks mode acc ≠ .error .assertEmptyImport := by
  intro toks
  induction toks with
  | nil =>
    intro mode acc _ _ _
    cases mode with
    | none =>
      intro hc
      cases (show (Except.ok (acc, ([] : List Tok)) :
        Except ImpErr (List String × List Tok)) =
        .error .assertEmptyImport from hc)
    | some s =>
      intro hc
      cases (show (Except.error (ImpErr.expectedToken "TK_NEWLINE") :
        Except ImpErr (List String × List Tok)) =
        .error .assertEmptyImport from hc)
  | cons t r ih =>
    intro mode acc htext hpat hmode
    have htail : ∀ t' ∈ r, Tok.text t' ≠ "" :=
      fun t' ht' => htext t' (List.mem_cons_of_mem _ ht')
    cases mode with
    | none =>
      cases t with
      | importKw =>
        have hr : ∀ s, (some "" : Option String) = some s →
            (s ≠ "" ∨ ∀ r', r ≠ Tok.newline :: r') := by
          intro s hs
          cases hs
          right
          intro r' hr'
          subst hr'
          simp [importThenNewline] at hpat
        show parseImportsLoop r (some "") acc ≠ .error .assertEmptyImport
        exact ih _ acc htail (importThenNewline_tail hpat) hr
      | ident s0 =>
        intro hc
        cases (show (Except.ok (acc, Tok.ident s0 :: r) :
          Except ImpErr (List String × List Tok)) =
          .error .assertEmptyImport from hc)
      | num lit =>
        intro hc
        cases (show (Except.ok (acc, Tok.num lit :: r) :
          Except ImpErr (List String × List Tok)) =
          .error .assertEmptyImport from hc)
      | punct s0 =>
        intro hc
        cases (show (Except.ok (acc, Tok.punct s0 :: r) :
          Except ImpErr (List String × List Tok)) =
          .error .assertEmptyImport from hc)
      | newline =>
        intro hc
        cases (show (Except.ok (acc, Tok.newline :: r) :
          Except ImpErr (List String × List Tok)) =
          .error .assertEmptyImport from hc)
      | classT c =>
        intro hc
        cases (show (Except.ok (acc, Tok.classT c :: r) :
          Except ImpErr (List String × List Tok)) =
          .error .assertEmptyImport from hc)
      | defT d =>
        intro hc
        cases (show (Except.ok (acc, Tok.defT d :: r) :
          Except ImpErr (List String × List Tok)) =
          .error .assertEmptyImport from hc)
    | some s =>
      cases t with
      | newline =>
        have hs : s ≠ "" := by
          rcases hmode s rfl with h | h
          · exact h
          · exact absurd rfl (h r)
        have h' : parseImportsLoop (Tok.newline :: r) (some s) acc =
            parseImportsLoop r none (insertSorted s acc) := by
          show (if s = "" then (.error .assertEmptyImport :
            Except ImpErr (List String × List Tok))
            else parseImportsLoop r none (insertSorted s acc)) = _
          rw [if_neg hs]
        rw [h']
        exact ih none (insertSorted s acc) htail
          (importThenNewline_tail hpat) (fun s' hs' => by cases hs')
      | importKw =>
        have harg : s ++ Tok.importKw.text ≠ "" :=
          append_ne_empty_of_right (htext _ (List.mem_cons_self _ _))
        show parseImportsLoop r (some (s ++ Tok.importKw.text)) acc ≠
          .error .assertEmptyImport
        exact ih _ acc htail (importThenNewline_tail hpat)
          (fun s' hs' => by cases hs'; exact Or.inl harg)
      | ident s0 =>
        have harg : s ++ (Tok.ident s0).text ≠ "" :=
          append_ne_empty_of_right (htext _ (List.mem_cons_self _ _))
        show parseImportsLoop r (some (s ++ (Tok.ident s0).text)) acc ≠
          .error .assertEmptyImport
        exact ih _ acc htail (importThenNewline_tail hpat)
          (fun s' hs' => by cases hs'; exact Or.inl harg)
      | num lit =>
        have harg : s ++ (Tok.num lit).text ≠ "" :=
          append_ne_empty_of_right (htext _ (List.mem_cons_self _ _))
        show parseImportsLoop r (some (s ++ (Tok.num lit).text)) acc ≠
          .error .assertEmptyImport
        exact ih _ acc htail (importThenNewline_tail hpat)
          (fun s' hs' => by cases hs'; exact Or.inl harg)
      | punct s0 =>
        have harg : s ++ (Tok.punct s0).text ≠ "" :=
          append_ne_empty_of_right (htext _ (List.mem_cons_self _ _))
        show parseImportsLoop r (some (s ++ (Tok.punct s0).text)) acc ≠
          .error .assertEmptyImport
        exact ih _ acc htail (importThenNewline_tail hpat)
          (fun s' hs' => by cases hs'; exact Or.inl harg)
      | classT c =>
        have harg : s ++ (Tok.classT c).text ≠ "" :=
          append_ne_empty_of_right (htext _ (List.mem_cons_self _ _))
        show parseImportsLoop r (some (s ++ (Tok.classT c).text)) acc ≠
          .error .assertEmptyImport
        exact ih _ acc htail (importThenNewline_tail hpat)
          (fun s' hs' => by cases hs'; exact Or.inl harg)
      | defT d =>
        have harg : s ++ (Tok.defT d).text ≠ "" :=
          append_ne_empty_of_right (htext _ (List.mem_cons_self _ _))
        show parseImportsLoop r (some (s ++ (Tok.defT d).text)) acc ≠
          .error .assertEmptyImport
        exact ih _ acc htail (importThenNewline_tail hpat)
          (fun s' hs' => by cases hs'; exact Or.inl harg)

/-- C8: every dependency name returned by `parseImports` is nonempty (an
empty concatenation aborts through the internal assertion instead), and
under the lexer contract — nonempty token spans, no `import` keyword
immediately followed by a newline — the assertion branch is
unreachable. -/
theorem C8_import_nonempty (toks : List Tok) :
    (∀ l rest, parseImports toks = .ok (l, rest) → ∀ s ∈ l, s ≠ "") ∧
    ((∀ t ∈ toks, Tok.text t ≠ "") → importThenNewline toks = false →
      parseImports toks ≠ .error .assertEmptyImport) := by
  constructor
  · intro l rest h
    exact (parseImportsLoop_ok toks none [] l rest h List.Pairwise.nil).2.2
      (by simp)
  · intro h1 h2
    exact parseImportsLoop_no_assert toks none [] h1 h2
      (fun s hs => by cases hs)

/-- C8 witness: a concrete well-formed preamble does not trip the
assertion. -/
theorem C8_witness :
    parseImports [Tok.importKw, Tok.ident "foo", Tok.newline] ≠
      .error .assertEmptyImport :=
  (C8_import_nonempty _).2 (by decide) (by decide)

/-! ## Invariants of the reconstruction drivers -/

lemma pairWithResolver_spec {α : Type} (res : SResolver α) :
    ∀ ds : List Def,
    (pairWithResolver res ds).1 = ds ∧
    (pairWithResolver res ds).2 = ds.map (fun _ => res) := by
  intro ds
  induction ds with
  | nil => exact ⟨rfl, rfl⟩
  | cons d r ih =>
    unfold pairWithResolver
    exact ⟨by simp [ih.1], by simp [ih.2]⟩

lemma collectDefs_spec {α : Type} (res : SResolver α) : ∀ (toks : List Tok)
    (ds : List Def) (rs : List (SResolver α)),
    collectDefs res toks = .ok (ds, rs) →
    ds.length = rs.length ∧ ∀ x ∈ rs, x = res := by
  intro toks
  induction toks with
  | nil =>
    intro ds rs h
    cases (show (Except.ok (([] : List Def), ([] : List (SResolver α))) :
      Except ImpErr (List Def × List (SResolver α))) = .ok (ds, rs) from h)
    exact ⟨rfl, by simp⟩
  | cons t r ih =>
    intro ds rs h
    cases t with
    | defT d =>
      have h' : (match collectDefs res r with
          | .error e => (.error e :
              Except ImpErr (List Def × List (SResolver α)))
          | .ok p => .ok (d :: p.1, res :: p.2)) = .ok (ds, rs) := h
      cases hc : collectDefs res r with
      | error e => rw [hc] at h'; cases h'
      | ok p =>
        rw [hc] at h'
        cases h'
        obtain ⟨ih1, ih2⟩ := ih p.1 p.2 (by rw [hc])
        refine ⟨by simp [ih1], ?_⟩
        intro x hx
        rcases List.mem_cons.mp hx with rfl | hx
        · rfl
        · exact ih2 x hx
    | ident s0 =>
      cases (show (Except.error ImpErr.parseError :
        Except ImpErr (List Def × List (SResolver α))) = .ok (ds, rs) from h)
    | num lit =>
      cases (show (Except.error ImpErr.parseError :
        Except ImpErr (List Def × List (SResolver α))) = .ok (ds, rs) from h)
    | punct s0 =>
      cases (show (Except.error ImpErr.parseError :
        Except ImpErr (List Def × List (SResolver α))) = .ok (ds, rs) from h)
    | newline =>
      cases (show (Except.error ImpErr.parseError :
        Except ImpErr (List Def × List (SResolver α))) = .ok (ds, rs) from h)
    | importKw =>
      cases (show (Except.error ImpErr.parseError :
        Except ImpErr (List Def × List (SResolver α))) = .ok (ds, rs) from h)
    | classT c =>
      cases (show (Except.error ImpErr.parseError :
        Except ImpErr (List Def × List (SResolver α))) = .ok (ds, rs) from h)

/-- Inversion of a successful `import_methods` run into its stages. -/
lemma import_methods_ok_inv {α : Type} {toks : List Tok} {ct : List α}
    {cb : Bool} {r : MethodsResult α}
    (h : import_methods toks ct cb = .ok r) :
    ∃ (v : Nat) (t1 : List Tok) (imports : List String) (t2 : List Tok)
      (p : List Def × List (SResolver α)),
      parseVersionNumber toks = .ok (v, t1) ∧
      parseImports t1 = .ok (imports, t2) ∧
      collectDefs (⟨v, ct, 0⟩ : SResolver α) t2 = .ok p ∧
      r = ⟨v, if cb then imports else [], p.1, p.2⟩ := by
  unfold import_methods at h
  split at h
  · cases h
  · next v t1 heq =>
    split at h
    · cases h
    · next imports t2 heq2 =>
      split at h
      · cases h
      · next p heq3 =>
        cases h
        exact ⟨v, t1, imports, t2, p, heq, heq2, heq3, rfl⟩

/-- The master invariant of the `import_libs` loop: every produced batch
has index-aligned definition/resolver lists, all resolvers of a batch are
the batch's single fresh environment (allocation number = the batch's
compilation-unit number), the batch's callback trace is strictly sorted
(empty when no callback is supplied), and the compilation-unit numbers
are strictly increasing from `k` across the batch list. -/
lemma importLibsLoop_inv {α : Type} (qual : String) (version : Nat)
    (ct : List α) (cb : Bool) : ∀ (fuel : Nat) (toks : List Tok) (k : Nat),
    (∀ b ∈ (importLibsLoop qual version ct cb fuel k toks).1,
      k ≤ b.cuId ∧
      b.callbackTrace.Pairwise (fun a b => strLt a b = true) ∧
      (cb = false → b.callbackTrace = []) ∧
      b.definitions.length = b.resolvers.length ∧
      (∀ res ∈ b.resolvers, res = ⟨version, ct, b.cuId⟩)) ∧
    ((importLibsLoop qual version ct cb fuel k toks).1.map
      LibBatch.cuId).Pairwise (· < ·) := by
  intro fuel
  induction fuel with
  | zero =>
    intro toks k
    cases toks with
    | nil =>
      exact ⟨fun b hb =>
        absurd (show b ∈ ([] : List (LibBatch α)) from hb)
          (List.not_mem_nil b), List.Pairwise.nil⟩
    | cons t0 r =>
      exact ⟨fun b hb =>
        absurd (show b ∈ ([] : List (LibBatch α)) from hb)
          (List.not_mem_nil b), List.Pairwise.nil⟩
  | succ fuel ih =>
    intro toks k
    cases toks with
    | nil =>
      exact ⟨fun b hb =>
        absurd (show b ∈ ([] : List (LibBatch α)) from hb)
          (List.not_mem_nil b), List.Pairwise.nil⟩
    | cons t0 r =>
      cases hpi : parseImports (t0 :: r) with
      | error e =>
        have hred : importLibsLoop qual version ct cb (fuel + 1) k
            (t0 :: r) = ([], some e) := by
          simp [importLibsLoop, hpi]
        rw [hred]
        exact ⟨fun b hb => absurd hb (List.not_mem_nil b),
          List.Pairwise.nil⟩
      | ok p =>
        obtain ⟨imports, t1⟩ := p
        have himp : imports.Pairwise (fun a b => strLt a b = true) :=
          (parseImportsLoop_ok (t0 :: r) none [] imports t1 hpi
            List.Pairwise.nil).1
        cases t1 with
        | nil =>
          have hred : importLibsLoop qual version ct cb (fuel + 1) k
              (t0 :: r) = ([], some .parseError) := by
            simp [importLibsLoop, hpi]
          rw [hred]
          exact ⟨fun b hb => absurd hb (List.not_mem_nil b),
            List.Pairwise.nil⟩
        | cons t1h t2 =>
          cases t1h with
          | classT c =>
            have hred : importLibsLoop qual version ct cb (fuel + 1) k
                (t0 :: r) =
                ((⟨if cb then imports else [], qual ++ "." ++ c.name, k,
                  (pairWithResolver (⟨version, ct, k⟩ : SResolver α)
                    c.defs).1,
                  (pairWithResolver (⟨version, ct, k⟩ : SResolver α)
                    c.defs).2⟩ : LibBatch α) ::
                  (importLibsLoop qual version ct cb fuel (k + 1) t2).1,
                 (importLibsLoop qual version ct cb fuel (k + 1) t2).2) := by
              simp [importLibsLoop, hpi]
            rw [hred]
            obtain ⟨ihA, ihB⟩ := ih t2 (k + 1)
            constructor
            · intro b hb
              rcases List.mem_cons.mp hb with rfl | hb
              · refine ⟨le_refl k, ?_, ?_, ?_, ?_⟩
                · show (if cb then imports else []).Pairwise _
                  split
                  · exact himp
                  · exact List.Pairwise.nil
                · intro hcb
                  show (if cb then imports else []) = []
                  rw [hcb]
                  rfl
                · show (pairWithResolver _ c.defs).1.length =
                    (pairWithResolver _ c.defs).2.length
                  rw [(pairWithResolver_spec _ c.defs).1,
                    (pairWithResolver_spec _ c.defs).2]
                  simp
                · intro res hres
                  rw [(pairWithResolver_spec _ c.defs).2] at hres
                  rcases List.mem_map.mp hres with ⟨d, _, rfl⟩
                  rfl
              · obtain ⟨h1, h2, h3, h4, h5⟩ := ihA b hb
                exact ⟨le_trans (Nat.le_succ k) h1, h2, h3, h4, h5⟩
            · rw [List.map_cons, List.pairwise_cons]
              refine ⟨?_, ihB⟩
              intro y hy
              rcases List.mem_map.mp hy with ⟨b, hb, rfl⟩
              exact lt_of_lt_of_le (Nat.lt_succ_self k) (ihA b hb).1
          | ident s0 =>
            have hred : importLibsLoop qual version ct cb (fuel + 1) k
                (t0 :: r) = ([], some .parseError) := by
              simp [importLibsLoop, hpi]
            rw [hred]
            exact ⟨fun b hb => absurd hb (List.not_mem_nil b),
              List.Pairwise.nil⟩
          | num lit =>
            have hred : importLibsLoop qual version ct cb (fuel + 1) k
                (t0 :: r) = ([], some .parseError) := by
              simp [importLibsLoop, hpi]
            rw [hred]
            exact ⟨fun b hb => absurd hb (List.not_mem_nil b),
              List.Pairwise.nil⟩
          | punct s0 =>
            have hred : importLibsLoop qual version ct cb (fuel + 1) k
                (t0 :: r) = ([], some .parseError) := by
              simp [importLibsLoop, hpi]
            rw [hred]
            exact ⟨fun b hb => absurd hb (List.not_mem_nil b),
              List.Pairwise.nil⟩
          | newline =>
            have hred : importLibsLoop qual version ct cb (fuel + 1) k
                (t0 :: r) = ([], some .parseError) := by
              simp [importLibsLoop, hpi]
            rw [hred]
            exact ⟨fun b hb => absurd hb (List.not_mem_nil b),
              List.Pairwise.nil⟩
          | importKw =>
            have hred : importLibsLoop qual version ct cb (fuel + 1) k
                (t0 :: r) = ([], some .parseError) := by
              simp [importLibsLoop, hpi]
            rw [hred]
            exact ⟨fun b hb => absurd hb (List.not_mem_nil b),
              List.Pairwise.nil⟩
          | defT d =>
            have hred : importLibsLoop qual version ct cb (fuel + 1) k
                (t0 :: r) = ([], some .parseError) := by
              simp [importLibsLoop, hpi]
            rw [hred]
            exact ⟨fun b hb => absurd hb (List.not_mem_nil b),
              List.Pairwise.nil⟩

/-- The `import_libs` loop behaves identically with and without a
callback, except that without one no invocation is recorded. -/
lemma importLibsLoop_cb {α : Type} (qual : String) (version : Nat)
    (ct : List α) : ∀ (fuel : Nat) (toks : List Tok) (k : Nat),
    ((importLibsLoop qual version ct false fuel k toks).2 =
      (importLibsLoop qual version ct true fuel k toks).2) ∧
    ((importLibsLoop qual version ct false fuel k toks).1.map
        (fun b => (b.className, b.cuId, b.definitions, b.resolvers)) =
      (importLibsLoop qual version ct true fuel k toks).1.map
        (fun b => (b.className, b.cuId, b.definitions, b.resolvers))) := by
  intro fuel
  induction fuel with
  | zero =>
    intro toks k
    cases toks with
    | nil => exact ⟨rfl, rfl⟩
    | cons t0 r => exact ⟨rfl, rfl⟩
  | succ fuel ih =>
    intro toks k
    cases toks with
    | nil => exact ⟨rfl, rfl⟩
    | cons t0 r =>
      cases hpi : parseImports (t0 :: r) with
      | error e =>
        have hredf : importLibsLoop qual version ct false (fuel + 1) k
            (t0 :: r) = ([], some e) := by simp [importLibsLoop, hpi]
        have hredt : importLibsLoop qual version ct true (fuel + 1) k
            (t0 :: r) = ([], some e) := by simp [importLibsLoop, hpi]
        rw [hredf, hredt]
        exact ⟨rfl, rfl⟩
      | ok p =>
        obtain ⟨imports, t1⟩ := p
        cases t1 with
        | nil =>
          have hredf : importLibsLoop qual version ct false (fuel + 1) k
              (t0 :: r) = ([], some .parseError) := by
            simp [importLibsLoop, hpi]
          have hredt : importLibsLoop qual version ct true (fuel + 1) k
              (t0 :: r) = ([], some .parseError) := by
            simp [importLibsLoop, hpi]
          rw [hredf, hredt]
          exact ⟨rfl, rfl⟩
        | cons t1h t2 =>
          cases t1h with
          | classT c =>
            have hredf : importLibsLoop qual version ct false (fuel + 1) k
                (t0 :: r) =
                ((⟨[], qual ++ "." ++ c.name, k,
                  (pairWithResolver (⟨version, ct, k⟩ : SResolver α)
                    c.defs).1,
                  (pairWithResolver (⟨version, ct, k⟩ : SResolver α)
                    c.defs).2⟩ : LibBatch α) ::
                  (importLibsLoop qual version ct false fuel (k + 1) t2).1,
                 (importLibsLoop qual version ct false fuel (k + 1)
                   t2).2) := by
              simp [importLibsLoop, hpi]
            have hredt : importLibsLoop qual version ct true (fuel + 1) k
                (t0 :: r) =
                ((⟨imports, qual ++ "." ++ c.name, k,
                  (pairWithResolver (⟨version, ct, k⟩ : SResolver α)
                    c.defs).1,
                  (pairWithResolver (⟨version, ct, k⟩ : SResolver α)
                    c.defs).2⟩ : LibBatch α) ::
                  (importLibsLoop qual version ct true fuel (k + 1) t2).1,
                 (importLibsLoop qual version ct true fuel (k + 1)
                   t2).2) := by
              simp [importLibsLoop, hpi]
            rw [hredf, hredt]
            obtain ⟨ih1, ih2⟩ := ih t2 (k + 1)
            exact ⟨ih1, by simp only [List.map_cons, ih2]⟩
          | ident s0 =>
            have hredf : importLibsLoop qual version ct false (fuel + 1) k
                (t0 :: r) = ([], some .parseError) := by
              simp [importLibsLoop, hpi]
            have hredt : importLibsLoop qual version ct true (fuel + 1) k
                (t0 :: r) = ([], some .parseError) := by
              simp [importLibsLoop, hpi]
            rw [hredf, hredt]
            exact ⟨rfl, rfl⟩
          | num lit =>
            have hredf : importLibsLoop qual version ct false (fuel + 1) k
                (t0 :: r) = ([], some .parseError) := by
              simp [importLibsLoop, hpi]
            have hredt : importLibsLoop qual version ct true (fuel + 1) k
                (t0 :: r) = ([], some .parseError) := by
              simp [importLibsLoop, hpi]
            rw [hredf, hredt]
            exact ⟨rfl, rfl⟩
          | punct s0 =>
            have hredf : importLibsLoop qual version ct false (fuel + 1) k
                (t0 :: r) = ([], some .parseError) := by
              simp [importLibsLoop, hpi]
            have hredt : importLibsLoop qual version ct true (fuel + 1) k
                (t0 :: r) = ([], some .parseError) := by
              simp [importLibsLoop, hpi]
            rw [hredf, hredt]
            exact ⟨rfl, rfl⟩
          | newline =>
            have hredf : importLibsLoop qual version ct false (fuel + 1) k
                (t0 :: r) = ([], some .parseError) := by
              simp [importLibsLoop, hpi]
            have hredt : importLibsLoop qual version ct true (fuel + 1) k
                (t0 :: r) = ([], some .parseError) := by
              simp [importLibsLoop, hpi]
            rw [hredf, hredt]
            exact ⟨rfl, rfl⟩
          | importKw =>
            have hredf : importLibsLoop qual version ct false (fuel + 1) k
                (t0 :: r) = ([], some .parseError) := by
              simp [importLibsLoop, hpi]
            have hredt : importLibsLoop qual version ct true (fuel + 1) k
                (t0 :: r) = ([], some .parseError) := by
              simp [importLibsLoop, hpi]
            rw [hredf, hredt]
            exact ⟨rfl, rfl⟩
          | defT d =>
            have hredf : importLibsLoop qual version ct false (fuel + 1) k
                (t0 :: r) = ([], some .parseError) := by
              simp [importLibsLoop, hpi]
            have hredt : importLibsLoop qual version ct true (fuel + 1) k
                (t0 :: r) = ([], some .parseError) := by
              simp [importLibsLoop, hpi]
            rw [hredf, hredt]
            exact ⟨rfl, rfl⟩

lemma pairwise_strLt_nodup {l : List String}
    (h : l.Pairwise (fun a b => strLt a b = true)) : l.Nodup :=
  h.imp (fun hab he => by subst he; rw [strLt_irrefl] at hab; cases hab)

/-- C4: the claim that either driver invokes the callback exactly once
per distinct dependency name of the whole source unit.  Refuted for
`import_libs`: deduplication is per class block, so a name imported in
the preambles of two blocks is reported twice in one call. -/
theorem C4_counterexample :
    ((import_libs "q"
        [Tok.ident "op_version_set", Tok.punct "=", Tok.num (.int 1),
         Tok.newline,
         Tok.importKw, Tok.ident "dep", Tok.newline, Tok.classT ⟨"A", []⟩,
         Tok.importKw, Tok.ident "dep", Tok.newline, Tok.classT ⟨"B", []⟩]
        ([] : List Nat) true).1.map LibBatch.callbackTrace).flatten =
      ["dep", "dep"] := by decide

/-- C4 (amended): the callback is invoked exactly once per distinct
dependency name *per import preamble*: `parseImports` deduplicates the
occurrences of one preamble; `import_methods` has a single preamble, so
its trace holds each distinct name of the unit once; each `import_libs`
block's trace is likewise duplicate-free (but blocks deduplicate
independently). -/
theorem C4_callback_dedup {α : Type} (ct : List α) :
    (∀ (t1 : List Tok) (l : List String) (rest : List Tok),
      parseImports t1 = .ok (l, rest) →
      l.Nodup ∧ (∀ s, s ∈ l ↔ s ∈ importOccurrences t1)) ∧
    (∀ (toks : List Tok) (r : MethodsResult α),
      import_methods toks ct true = .ok r → r.callbackTrace.Nodup) ∧
    (∀ (qual : String) (version : Nat) (cb : Bool) (fuel k : Nat)
      (toks : List Tok),
      ∀ b ∈ (importLibsLoop qual version ct cb fuel k toks).1,
        b.callbackTrace.Nodup) := by
  refine ⟨?_, ?_, ?_⟩
  · intro t1 l rest h
    obtain ⟨h1, h2, _⟩ := parseImportsLoop_ok t1 none [] l rest h
      List.Pairwise.nil
    exact ⟨pairwise_strLt_nodup h1,
      fun s => by rw [h2 s]; simp [importOccurrences]⟩
  · intro toks r h
    obtain ⟨v, t1, imports, t2, p, hv, hi, hc, rfl⟩ :=
      import_methods_ok_inv h
    exact pairwise_strLt_nodup
      (parseImportsLoop_ok t1 none [] imports t2 hi List.Pairwise.nil).1
  · intro qual version cb fuel k toks b hb
    exact pairwise_strLt_nodup
      ((importLibsLoop_inv qual version ct cb fuel toks k).1 b hb).2.1

/-- C4 witness for the amended claim: a concrete `import_methods` trace is
duplicate-free. -/
theorem C4_witness :
    (MethodsResult.callbackTrace
      (⟨1, ["m"], [⟨"f"⟩], [⟨1, [], 0⟩]⟩ : MethodsResult Nat)).Nodup :=
  (C4_callback_dedup ([] : List Nat)).2.1
    [Tok.ident "op_version_set", Tok.punct "=", Tok.num (.int 1),
     Tok.newline, Tok.importKw, Tok.ident "m", Tok.newline, Tok.defT ⟨"f"⟩]
    ⟨1, ["m"], [⟨"f"⟩], [⟨1, [], 0⟩]⟩ (by decide)

/-- C6: in both drivers the definition list and resolver list handed to
`define` have equal length and are index-aligned; in `import_methods` all
definitions share the one environment (allocation number 0); in
`import_libs` each batch's resolvers are all that batch's fresh
environment, and the allocation numbers strictly increase across batches,
so no environment is shared between two classes. -/
theorem C6_define_alignment {α : Type} (toks : List Tok) (ct : List α)
    (cb : Bool) (qual : String) (version fuel k : Nat) :
    (∀ r, import_methods toks ct cb = .ok r →
      r.definitions.length = r.resolvers.length ∧
      ∀ res ∈ r.resolvers, res = ⟨r.version, ct, 0⟩) ∧
    (∀ b ∈ (importLibsLoop qual version ct cb fuel k toks).1,
      b.definitions.length = b.resolvers.length ∧
      ∀ res ∈ b.resolvers, res = ⟨version, ct, b.cuId⟩) ∧
    ((importLibsLoop qual version ct cb fuel k toks).1.map
      LibBatch.cuId).Pairwise (· < ·) := by
  refine ⟨?_, ?_, (importLibsLoop_inv qual version ct cb fuel toks k).2⟩
  · intro r h
    obtain ⟨v, t1, imports, t2, p, hv, hi, hc, rfl⟩ :=
      import_methods_ok_inv h
    obtain ⟨h1, h2⟩ := collectDefs_spec _ t2 p.1 p.2 hc
    exact ⟨h1, fun res hres => h2 res hres⟩
  · intro b hb
    obtain ⟨_, _, _, h4, h5⟩ :=
      (importLibsLoop_inv qual version ct cb fuel toks k).1 b hb
    exact ⟨h4, h5⟩

/-- C6 witness: a concrete `import_methods` run pairs its two definitions
with two copies of the shared resolver. -/
theorem C6_witness :
    (MethodsResult.definitions
      (⟨2, ["m"], [⟨"f"⟩, ⟨"g"⟩], [⟨2, [7], 0⟩, ⟨2, [7], 0⟩]⟩ :
        MethodsResult Nat)).length =
    (MethodsResult.resolvers
      (⟨2, ["m"], [⟨"f"⟩, ⟨"g"⟩], [⟨2, [7], 0⟩, ⟨2, [7], 0⟩]⟩ :
        MethodsResult Nat)).length :=
  ((C6_define_alignment
    [Tok.ident "op_version_set", Tok.punct "=", Tok.num (.int 2),
     Tok.newline, Tok.importKw, Tok.ident "m", Tok.newline,
     Tok.defT ⟨"f"⟩, Tok.defT ⟨"g"⟩] [(7 : Nat)] true "q" 0 0 0).1
    ⟨2, ["m"], [⟨"f"⟩, ⟨"g"⟩], [⟨2, [7], 0⟩, ⟨2, [7], 0⟩]⟩ (by decide)).1

/-- C7: one iteration of the `import_libs` loop on a block whose preamble
parses to `imports` followed by one class body registers exactly one
batch: the class is registered under the qualifier-prefixed name in the
fresh compilation unit `k`, its methods paired with the block's fresh
environment; and whatever error the remaining blocks produce, the batch
of this class stays in the output (no rollback). -/
theorem C7_class_independence {α : Type} (qual : String) (version : Nat)
    (ct : List α) (cb : Bool) (toks t2 : List Tok) (imports : List String)
    (c : ClassDef) (k fuel : Nat)
    (hp : parseImports toks = .ok (imports, Tok.classT c :: t2)) :
    importLibsLoop qual version ct cb (fuel + 1) k toks =
      ((⟨if cb then imports else [], qual ++ "." ++ c.name, k,
        (pairWithResolver (⟨version, ct, k⟩ : SResolver α) c.defs).1,
        (pairWithResolver (⟨version, ct, k⟩ : SResolver α) c.defs).2⟩ :
          LibBatch α) ::
        (importLibsLoop qual version ct cb fuel (k + 1) t2).1,
       (importLibsLoop qual version ct cb fuel (k + 1) t2).2) ∧
    (∀ bs e, importLibsLoop qual version ct cb fuel (k + 1) t2 =
        (bs, some e) →
      importLibsLoop qual version ct cb (fuel + 1) k toks =
        ((⟨if cb then imports else [], qual ++ "." ++ c.name, k,
          (pairWithResolver (⟨version, ct, k⟩ : SResolver α) c.defs).1,
          (pairWithResolver (⟨version, ct, k⟩ : SResolver α) c.defs).2⟩ :
            LibBatch α) :: bs, some e)) := by
  cases toks with
  | nil =>
    cases (show (Except.ok (([] : List String), ([] : List Tok)) :
      Except ImpErr (List String × List Tok)) =
      .ok (imports, Tok.classT c :: t2) from hp)
  | cons t0 r =>
    have hred : importLibsLoop qual version ct cb (fuel + 1) k (t0 :: r) =
        ((⟨if cb then imports else [], qual ++ "." ++ c.name, k,
          (pairWithResolver (⟨version, ct, k⟩ : SResolver α) c.defs).1,
          (pairWithResolver (⟨version, ct, k⟩ : SResolver α) c.defs).2⟩ :
            LibBatch α) ::
          (importLibsLoop qual version ct cb fuel (k + 1) t2).1,
         (importLibsLoop qual version ct cb fuel (k + 1) t2).2) := by
      simp [importLibsLoop, hp]
    refine ⟨hred, ?_⟩
    intro bs e hbs
    rw [hred, hbs]

/-- C7 witness: a concrete class block followed by a malformed block
keeps the first class's batch next to the error. -/
theorem C7_witness :
    importLibsLoop "q" 1 ([] : List Nat) true 2 0
        [Tok.classT ⟨"A", []⟩, Tok.importKw] =
      ((⟨[], "q.A", 0, [], []⟩ : LibBatch Nat) ::
        (importLibsLoop "q" 1 ([] : List Nat) true 1 1 [Tok.importKw]).1,
       (importLibsLoop "q" 1 ([] : List Nat) true 1 1 [Tok.importKw]).2) :=
  (C7_class_independence "q" 1 ([] : List Nat) true
    [Tok.classT ⟨"A", []⟩, Tok.importKw] [Tok.importKw] [] ⟨"A", []⟩ 0 1
    (by decide)).1

/-- C9: with no callback bound, both drivers behave exactly as with one,
except that no invocation is recorded: same errors, same version,
definitions, resolvers, class names and compilation units, and an empty
invocation trace. -/
theorem C9_null_callback {α : Type} (toks : List Tok) (ct : List α)
    (qual : String) :
    (∀ e, import_methods toks ct false = .error e ↔
      import_methods toks ct true = .error e) ∧
    (∀ r, import_methods toks ct false = .ok r → r.callbackTrace = []) ∧
    (∀ r r', import_methods toks ct true = .ok r →
      import_methods toks ct false = .ok r' →
      r'.version = r.version ∧ r'.definitions = r.definitions ∧
      r'.resolvers = r.resolvers) ∧
    ((import_libs qual toks ct false).2 =
      (import_libs qual toks ct true).2) ∧
    (∀ b ∈ (import_libs qual toks ct false).1, b.callbackTrace = []) ∧
    ((import_libs qual toks ct false).1.map
        (fun b => (b.className, b.cuId, b.definitions, b.resolvers)) =
      (import_libs qual toks ct true).1.map
        (fun b => (b.className, b.cuId, b.definitions, b.resolvers))) := by
  cases hv : parseVersionNumber toks with
  | error e0 =>
    have hmf : import_methods toks ct false = .error e0 := by
      unfold import_methods; rw [hv]
    have hmt : import_methods toks ct true = .error e0 := by
      unfold import_methods; rw [hv]
    have hlf : import_libs qual toks ct false = ([], some e0) := by
      unfold import_libs; rw [hv]
    have hlt : import_libs qual toks ct true = ([], some e0) := by
      unfold import_libs; rw [hv]
    rw [hmf, hmt, hlf, hlt]
    refine ⟨fun e => Iff.rfl, ?_, ?_, rfl, ?_, rfl⟩
    · intro r h; cases h
    · intro r r' h; cases h
    · intro b hb; exact absurd hb (List.not_mem_nil b)
  | ok p =>
    obtain ⟨version, t1⟩ := p
    have hlf : import_libs qual toks ct false =
        importLibsLoop qual version ct false (t1.length + 1) 0 t1 := by
      unfold import_libs; rw [hv]
    have hlt : import_libs qual toks ct true =
        importLibsLoop qual version ct true (t1.length + 1) 0 t1 := by
      unfold import_libs; rw [hv]
    have hlibs2 : (import_libs qual toks ct false).2 =
        (import_libs qual toks ct true).2 := by
      rw [hlf, hlt]
      exact (importLibsLoop_cb qual version ct (t1.length + 1) t1 0).1
    have hlibs5 : ∀ b ∈ (import_libs qual toks ct false).1,
        b.callbackTrace = [] := by
      rw [hlf]
      intro b hb
      exact ((importLibsLoop_inv qual version ct false (t1.length + 1)
        t1 0).1 b hb).2.2.1 rfl
    have hlibs6 : (import_libs qual toks ct false).1.map
        (fun b => (b.className, b.cuId, b.definitions, b.resolvers)) =
        (import_libs qual toks ct true).1.map
          (fun b => (b.className, b.cuId, b.definitions, b.resolvers)) := by
      rw [hlf, hlt]
      exact (importLibsLoop_cb qual version ct (t1.length + 1) t1 0).2
    cases hi : parseImports t1 with
    | error e0 =>
      have hmf : import_methods toks ct false = .error e0 := by
        unfold import_methods; simp only [hv]; rw [hi]
      have hmt : import_methods toks ct true = .error e0 := by
        unfold import_methods; simp only [hv]; rw [hi]
      rw [hmf, hmt]
      refine ⟨fun e => Iff.rfl, ?_, ?_, hlibs2, hlibs5, hlibs6⟩
      · intro r h; cases h
      · intro r r' h; cases h
    | ok q =>
      obtain ⟨imports, t2⟩ := q
      cases hc : collectDefs (⟨version, ct, 0⟩ : SResolver α) t2 with
      | error e0 =>
        have hmf : import_methods toks ct false = .error e0 := by
          unfold import_methods; simp only [hv]; rw [hi]; simp only []
          rw [hc]
        have hmt : import_methods toks ct true = .error e0 := by
          unfold import_methods; simp only [hv]; rw [hi]; simp only []
          rw [hc]
        rw [hmf, hmt]
        refine ⟨fun e => Iff.rfl, ?_, ?_, hlibs2, hlibs5, hlibs6⟩
        · intro r h; cases h
        · intro r r' h; cases h
      | ok p2 =>
        have hmf : import_methods toks ct false =
            .ok ⟨version, [], p2.1, p2.2⟩ := by
          unfold import_methods; simp only [hv]; rw [hi]; simp only []
          rw [hc]
          rfl
        have hmt : import_methods toks ct true =
            .ok ⟨version, imports, p2.1, p2.2⟩ := by
          unfold import_methods; simp only [hv]; rw [hi]; simp only []
          rw [hc]
          rfl
        rw [hmf, hmt]
        refine ⟨?_, ?_, ?_, hlibs2, hlibs5, hlibs6⟩
        · intro e
          constructor
          · intro h; cases h
          · intro h; cases h
        · intro r h
          cases h
          rfl
        · intro r r' ht hf
          cases ht
          cases hf
          exact ⟨rfl, rfl, rfl⟩

/-- C9 witness: a concrete run without callback records no invocation. -/
theorem C9_witness :
    (MethodsResult.callbackTrace
      (⟨1, [], [⟨"f"⟩], [⟨1, [], 0⟩]⟩ : MethodsResult Nat)) = [] :=
  (C9_null_callback
    [Tok.ident "op_version_set", Tok.punct "=", Tok.num (.int 1),
     Tok.newline, Tok.importKw, Tok.ident "m", Tok.newline, Tok.defT ⟨"f"⟩]
    ([] : List Nat) "q").2.1
    ⟨1, [], [⟨"f"⟩], [⟨1, [], 0⟩]⟩ (by decide)

/-- C10: the callback invocations of a preamble are the distinct
dependency names in strictly increasing lexicographic (byte-wise) order,
independent of the order of the import statements — two preambles with
the same name set produce the same trace — and the `import_methods`
callback trace is exactly such a sorted list. -/
theorem C10_callback_order {α : Type} (toks : List Tok) (ct : List α) :
    (∀ l rest, parseImports toks = .ok (l, rest) →
      l.Pairwise (fun a b => strLt a b = true) ∧
      (∀ s, s ∈ l ↔ s ∈ importOccurrences toks)) ∧
    (∀ (toks' : List Tok) (l l' : List String) (rest rest' : List Tok),
      parseImports toks = .ok (l, rest) →
      parseImports toks' = .ok (l', rest') →
      (∀ s, s ∈ importOccurrences toks ↔ s ∈ importOccurrences toks') →
      l = l') ∧
    (∀ r, import_methods toks ct true = .ok r →
      r.callbackTrace.Pairwise (fun a b => strLt a b = true)) := by
  refine ⟨?_, ?_, ?_⟩
  · intro l rest h
    obtain ⟨h1, h2, _⟩ := parseImportsLoop_ok toks none [] l rest h
      List.Pairwise.nil
    exact ⟨h1, fun s => by rw [h2 s]; simp [importOccurrences]⟩
  · intro toks' l l' rest rest' h h' hocc
    obtain ⟨h1, h2, _⟩ := parseImportsLoop_ok toks none [] l rest h
      List.Pairwise.nil
    obtain ⟨h1', h2', _⟩ := parseImportsLoop_ok toks' none [] l' rest' h'
      List.Pairwise.nil
    refine pairwise_strLt_ext l l' h1 h1' ?_
    intro s
    rw [h2 s, h2' s]
    simp only [List.not_mem_nil, false_or]
    exact hocc s
  · intro r h
    obtain ⟨v, t1, imports, t2, p, hv, hi, hc, rfl⟩ :=
      import_methods_ok_inv h
    exact (parseImportsLoop_ok t1 none [] imports t2 hi
      List.Pairwise.nil).1

/-- C10 witness: a preamble importing `b` then `a` yields the sorted
trace. -/
theorem C10_witness :
    (["a", "b"] : List String).Pairwise (fun x y => strLt x y = true) :=
  ((C10_callback_order
      [Tok.importKw, Tok.ident "b", Tok.newline,
       Tok.importKw, Tok.ident "a", Tok.newline] ([] : List Nat)).1
    ["a", "b"] [] (by decide)).1

/-- C5: the claim that whenever `root.A.B` is registered, the chain
`root` / `.A` / `.B` yields namespace, namespace, class handle.  Refuted:
if `root.A` is itself registered as a type, the `.A` step already yields
a class handle, not a namespace. -/
theorem C5_counterexample :
    (["__torch__", "A", "B"] ∈
      [["__torch__", "A"], ["__torch__", "A", "B"]]) ∧
    resolveValue 0 "__torch__" =
      some (SugaredV.namespaceV ["__torch__"]) ∧
    classNamespaceAttr [["__torch__", "A"], ["__torch__", "A", "B"]]
      ["__torch__"] "A" = SugaredV.classV ["__torch__", "A"] := by
  decide

/-- C5 (amended): for a registered type `__torch__.A.B` whose
intermediate prefix `__torch__.A` is not itself registered, resolving the
root token and then attributes `.A` and `.B` yields a namespace, a
namespace, and the concrete class handle, in that order; and attribute
access for any unregistered extension yields a deeper namespace, never a
failure. -/
theorem C5_namespace_chain (R : List (List String)) (v : Nat)
    (A B : String) (hB : ["__torch__", A, B] ∈ R)
    (hA : ["__torch__", A] ∉ R) :
    resolveValue v "__torch__" =
      some (SugaredV.namespaceV ["__torch__"]) ∧
    classNamespaceAttr R ["__torch__"] A =
      SugaredV.namespaceV ["__torch__", A] ∧
    classNamespaceAttr R ["__torch__", A] B =
      SugaredV.classV ["__torch__", A, B] ∧
    (∀ (Q : List String) (a : String), Q ++ [a] ∉ R →
      classNamespaceAttr R Q a = SugaredV.namespaceV (Q ++ [a])) := by
  refine ⟨rfl, ?_, ?_, ?_⟩
  · simp only [classNamespaceAttr, List.cons_append, List.nil_append]
    rw [if_neg hA]
  · simp only [classNamespaceAttr, List.cons_append, List.nil_append]
    rw [if_pos hB]
  · intro Q a hno
    simp only [classNamespaceAttr]
    rw [if_neg hno]

/-- C5 witness: with only `__torch__.A.B` registered the `.A` step is a
namespace. -/
theorem C5_witness :
    classNamespaceAttr [["__torch__", "A", "B"]] ["__torch__"] "A" =
      SugaredV.namespaceV ["__torch__", "A"] :=
  (C5_namespace_chain [["__torch__", "A", "B"]] 0 "A" "B" (by decide)
    (by decide)).2.1

end TorchImport
